import Mathlib

/-!
Shallow embedding of `replace_imgui.py`, a one-off script that reads a C++
source file as a list of lines, locates the `RenderImGui` function block by a
start marker and a heuristic end-of-block scan, splices in replacement text,
and writes the file back.

Modelling notes.
* A document is a `List String` of lines (the result of `readlines`, each line
  normally keeping its terminator).
* Python `str.strip` is modelled by `pyStrip` over the ASCII whitespace
  characters it removes; `pat in line` by `containsSub`; `str.startswith` by
  `startsWithChars`.
* The scan loop of lines 15-25 is `scanAux` (fuel-indexed, fuel = number of
  lines, which never runs out before the index leaves the list).
* When the start or the end index is unset, line 27 of the script evaluates
  `start_line + 1` resp. `end_line + 1` on `None`, raising an uncaught
  `TypeError`: the process aborts at the report step, before the write on
  line 33, and the target file is untouched.  `Outcome.notFoundAbort` and
  `Outcome.boundaryAbort` record those two aborts; their names follow the
  error taxonomy of the specification (NotFoundError / BoundaryError), the
  abort conditions and their before-any-write timing come from the source.
* The `utf-8-sig` codec is modelled at the codepoint level: writing prepends
  the byte-order-marker character U+FEFF, reading strips one leading U+FEFF
  if present (UTF-8 byte encoding proper is a bijection on codepoint
  sequences and is elided).
-/

/-- Characters removed by Python `str.strip()` (ASCII range). -/
def isSpaceChar (c : Char) : Bool :=
  c == ' ' || c == '\t' || c == '\n' || c == '\r' || c == '\x0b' || c == '\x0c'

/-- Python `str.strip()`: drop leading and trailing whitespace. -/
def pyStrip (s : String) : String :=
  ⟨((s.data.dropWhile isSpaceChar).reverse.dropWhile isSpaceChar).reverse⟩

/-- First list is a prefix of the second (character lists). -/
def isPrefixChars : List Char → List Char → Bool
  | [], _ => true
  | _ :: _, [] => false
  | a :: as, b :: bs => a == b && isPrefixChars as bs

/-- Contiguous-substring test on character lists, as Python `pat in hay`. -/
def containsChars : List Char → List Char → Bool
  | [], pat => isPrefixChars pat []
  | c :: t, pat => isPrefixChars pat (c :: t) || containsChars t pat

/-- Python `pat in line` on strings. -/
def containsSub (line pat : String) : Bool :=
  containsChars line.data pat.data

/-- Python `s.startswith(pre)`. -/
def startsWithChars (s pre : String) : Bool :=
  isPrefixChars pre.data s.data

/-- The start marker hard-coded on line 16 of the script. -/
def MARKER : String := "void DX12Renderer::RenderImGui"

/-- The minimum gap hard-coded on line 19 of the script (`i > start_line + 10`). -/
def MIN_GAP : Nat := 10

/-- Line `i` exists and contains the marker substring (line 16). -/
def markerAt (m : String) (L : List String) (i : Nat) : Bool :=
  match L[i]? with
  | some line => containsSub line m
  | none => false

/-- Lines 21-23: the line after `i` exists and is a section banner, a new
declaration, or blank. -/
def nextLineOk (L : List String) (i : Nat) : Bool :=
  match L[i + 1]? with
  | some nxt =>
      startsWithChars (pyStrip nxt) "//===" || startsWithChars (pyStrip nxt) "void " ||
        pyStrip nxt == ""
  | none => false

/-- Line 19 first conjunct: line `i` exists and strips to a lone closing brace. -/
def isCloser (L : List String) (i : Nat) : Bool :=
  match L[i]? with
  | some line => pyStrip line == "\x7d"
  | none => false

/-- Lines 19-23 in full: line `i` qualifies as the end of the block found at
`s`, with minimum gap `g` (the script uses `g = 10`). -/
def isEndCandidate (L : List String) (g s i : Nat) : Bool :=
  isCloser L i && decide (s + g < i) && nextLineOk L i

/-- The scan loop of lines 15-25.  `st` is the current `start_line`; the start
is overwritten on every marker line; once a start is set, the first qualifying
end line returns both indices (the `break`).  Fuel counts remaining
iterations. -/
def scanAux (m : String) (g : Nat) (L : List String) :
    Nat → Nat → Option Nat → Option Nat × Option Nat
  | 0, _, st => (st, none)
  | fuel + 1, i, st =>
    match L[i]? with
    | none => (st, none)
    | some line =>
      match (if containsSub line m then some i else st : Option Nat) with
      | none => scanAux m g L fuel (i + 1) none
      | some s =>
        if isEndCandidate L g s i then (some s, some i)
        else scanAux m g L fuel (i + 1) (some s)

/-- The whole scan of lines 12-25, starting at line 0 with both indices unset. -/
def scanBoundaries (m : String) (g : Nat) (L : List String) : Option Nat × Option Nat :=
  scanAux m g L L.length 0 none

/-- Line 30: `lines[:start_line] + [new_imgui + '\n'] + lines[end_line + 1:]`. -/
def spliceLines (L : List String) (repl : String) (s e : Nat) : List String :=
  L.take s ++ ([repl ++ "\n"] ++ L.drop (e + 1))

/-- Observable outcome of one run.  The two abort constructors are the uncaught
exception at the report step (line 27 evaluates `None + 1`) when the start
resp. the end index is unset; in both cases the process stops before the write
on line 33.  Constructor names follow the specification's error taxonomy
(NotFoundError, BoundaryError). -/
inductive Outcome where
  | notFoundAbort : Outcome
  | boundaryAbort : Outcome
  | written : List String → Outcome
deriving DecidableEq

/-- One run of the script on document `L` with replacement text `repl`:
scan, then either abort at the report step or write the spliced lines. -/
def runScript (m : String) (g : Nat) (repl : String) (L : List String) : Outcome :=
  match scanBoundaries m g L with
  | (none, _) => Outcome.notFoundAbort
  | (some _, none) => Outcome.boundaryAbort
  | (some s, some e) => Outcome.written (spliceLines L repl s e)

/-- Content of the target file after the run: the spliced lines when the write
happens, the unchanged original when the run aborts first. -/
def finalFile (m : String) (g : Nat) (repl : String) (L : List String) : List String :=
  match runScript m g repl L with
  | Outcome.written out => out
  | _ => L

/-- The byte-order-marker character written and stripped by `utf-8-sig`. -/
def BOM_CHAR : String := "\uFEFF"

/-- Lines 33-34: writing with `utf-8-sig` prepends the byte-order marker to the
concatenated lines. -/
def writeUtf8Sig (out : List String) : String :=
  BOM_CHAR ++ String.join out

/-- Lines 4-5: reading with `utf-8-sig` strips one leading byte-order marker if
present. -/
def readUtf8Sig (content : String) : String :=
  if startsWithChars content BOM_CHAR then ⟨content.data.drop 1⟩ else content

/-- Test document: the marker on line 0, ten body lines, a lone closing brace
on line 11 (more than 10 lines after the start), then a blank line. -/
def exDoc : List String :=
  ["void DX12Renderer::RenderImGui() \x7b",
   "  a1;", "  a2;", "  a3;", "  a4;", "  a5;", "  a6;", "  a7;", "  a8;", "  a9;", "  a10;",
   "\x7d",
   ""]

/-- Test document: like `exDoc` but the lone closing brace is the final line,
with nothing after it. -/
def exDocLast : List String :=
  ["void DX12Renderer::RenderImGui() \x7b",
   "  a1;", "  a2;", "  a3;", "  a4;", "  a5;", "  a6;", "  a7;", "  a8;", "  a9;", "  a10;",
   "\x7d"]

/-- Test document: marker present but the closing brace comes only 1 line
later, inside the 10-line minimum gap, so no line qualifies as the end. -/
def exShort : List String :=
  ["void DX12Renderer::RenderImGui() \x7b", "\x7d", ""]

/-- Test document with no marker line at all. -/
def exNoMarker : List String :=
  ["int main() \x7b", "  return 0;", "\x7d"]

/-- Test document in which the marker substring occurs on line 0 and again on
line 1 (inside a comment) before any end line qualifies. -/
def ex5 : List String :=
  ["void DX12Renderer::RenderImGui() \x7b",
   "  // see void DX12Renderer::RenderImGui docs",
   "  b2;", "  b3;", "  b4;", "  b5;", "  b6;", "  b7;", "  b8;", "  b9;", "  b10;", "  b11;",
   "\x7d",
   ""]

/-- The concrete scenario of the specification's testable-properties section. -/
def ex6 : List String :=
  ["void Foo() \x7b\n", "  doA();\n", "\x7d\n", "\n", "void Bar() \x7b\n", "\x7d\n"]

/-- Replacement text for the concrete scenario. -/
def repl6 : String := "void Foo() \x7b\n  doB();\n\x7d\n"

/-- Replacement text that does not contain the marker substring. -/
def repl7 : String := "// ImGui disabled"

/-- A line index at which the marker tests true is inside the document. -/
theorem markerAt_lt {m : String} {L : List String} {i : Nat}
    (h : markerAt m L i = true) : i < L.length := by
  by_contra hc
  have hnone : L[i]? = none := List.getElem?_eq_none (Nat.le_of_not_lt hc)
  simp [markerAt, hnone] at h

/-- Past the end of the document the marker test is false. -/
theorem markerAt_of_ge {m : String} {L : List String} {i : Nat}
    (hc : L.length ≤ i) : markerAt m L i = false := by
  simp [markerAt, List.getElem?_eq_none hc]

/-- A line whose following line passes the look-ahead is not the last line. -/
theorem nextLineOk_lt {L : List String} {i : Nat}
    (h : nextLineOk L i = true) : i + 1 < L.length := by
  by_contra hc
  have hnone : L[i + 1]? = none := List.getElem?_eq_none (Nat.le_of_not_lt hc)
  simp [nextLineOk, hnone] at h

/-- A line that strips to a lone closing brace is inside the document. -/
theorem isCloser_lt {L : List String} {i : Nat}
    (h : isCloser L i = true) : i < L.length := by
  by_contra hc
  have hnone : L[i]? = none := List.getElem?_eq_none (Nat.le_of_not_lt hc)
  simp [isCloser, hnone] at h

/-- Unfolding of a successful end-of-block test into its three conjuncts. -/
theorem isEndCandidate_parts {L : List String} {g s i : Nat}
    (h : isEndCandidate L g s i = true) :
    isCloser L i = true ∧ s + g < i ∧ nextLineOk L i = true := by
  simp only [isEndCandidate, Bool.and_eq_true, decide_eq_true_eq] at h
  exact ⟨h.1.1, h.1.2, h.2⟩

/-- A qualifying end line is inside the document. -/
theorem isEndCandidate_lt {L : List String} {g s i : Nat}
    (h : isEndCandidate L g s i = true) : i < L.length :=
  isCloser_lt (isEndCandidate_parts h).1

/-- Past the end of the document the end-of-block test is false. -/
theorem isEndCandidate_of_ge {L : List String} {g s i : Nat}
    (hc : L.length ≤ i) : isEndCandidate L g s i = false := by
  simp [isEndCandidate, isCloser, List.getElem?_eq_none hc]

/-- Base-case unfolding of the scan loop. -/
theorem scanAux_zero (m : String) (g : Nat) (L : List String) (i : Nat) (st : Option Nat) :
    scanAux m g L 0 i st = (st, none) := rfl

/-- Step unfolding of the scan loop. -/
theorem scanAux_succ (m : String) (g : Nat) (L : List String) (fuel i : Nat) (st : Option Nat) :
    scanAux m g L (fuel + 1) i st =
      match L[i]? with
      | none => (st, none)
      | some line =>
        match (if containsSub line m then some i else st : Option Nat) with
        | none => scanAux m g L fuel (i + 1) none
        | some s =>
          if isEndCandidate L g s i then (some s, some i)
          else scanAux m g L fuel (i + 1) (some s) := rfl

/-- Characterization of the scan loop.  Starting at index `i` with enough fuel
and with the invariants that the carried start is the most recent marker line
before `i`, that no marker precedes a `none` start, and that no end test has
yet succeeded against the carried start, the loop returns: on `(some s, some e)`
the last marker line `s` up to `e` together with the first qualifying end line
`e`; on `(some s, none)` the last marker line of the whole document with no
qualifying end line anywhere; on `(none, _)` no end index and no marker line
anywhere. -/
theorem scanAux_spec (m : String) (g : Nat) (L : List String) :
    ∀ (fuel i : Nat) (st : Option Nat),
      L.length ≤ i + fuel →
      (∀ s0, st = some s0 → markerAt m L s0 = true ∧ s0 < i ∧
          ∀ j, s0 < j → j < i → markerAt m L j = false) →
      (st = none → ∀ j, j < i → markerAt m L j = false) →
      (∀ s0, st = some s0 → ∀ j, s0 ≤ j → j < i → isEndCandidate L g s0 j = false) →
      (∀ s e, scanAux m g L fuel i st = (some s, some e) →
          markerAt m L s = true ∧ s < L.length ∧ e < L.length ∧
          isEndCandidate L g s e = true ∧
          (∀ j, j < e → isEndCandidate L g s j = false) ∧
          (∀ j, s < j → j ≤ e → markerAt m L j = false)) ∧
      (∀ s, scanAux m g L fuel i st = (some s, none) →
          markerAt m L s = true ∧ s < L.length ∧
          (∀ j, s < j → markerAt m L j = false) ∧
          (∀ j, isEndCandidate L g s j = false)) ∧
      (∀ e?, scanAux m g L fuel i st = (none, e?) →
          e? = none ∧ ∀ j, markerAt m L j = false) := by
  intro fuel
  induction fuel with
  | zero =>
    intro i st hfuel ha hb hc
    have hlen : L.length ≤ i := by omega
    rw [scanAux_zero]
    refine ⟨?_, ?_, ?_⟩
    · intro s e hres
      exact absurd (congrArg Prod.snd hres) (by simp)
    · intro s hres
      rw [Prod.mk.injEq] at hres
      obtain ⟨hst, -⟩ := hres
      obtain ⟨hma, hslt, hmono⟩ := ha s hst
      refine ⟨hma, markerAt_lt hma, ?_, ?_⟩
      · intro j hsj
        by_cases hj : j < i
        · exact hmono j hsj hj
        · exact markerAt_of_ge (by omega)
      · intro j
        by_cases hj : j < i
        · by_cases hsj : s ≤ j
          · exact hc s hst j hsj hj
          · cases hEC : isEndCandidate L g s j with
            | false => rfl
            | true => exact absurd ((isEndCandidate_parts hEC).2.1) (by omega)
        · exact isEndCandidate_of_ge (by omega)
    · intro e? hres
      rw [Prod.mk.injEq] at hres
      obtain ⟨hst, he⟩ := hres
      refine ⟨he.symm, ?_⟩
      intro j
      by_cases hj : j < i
      · exact hb hst j hj
      · exact markerAt_of_ge (by omega)
  | succ fuel ih =>
    intro i st hfuel ha hb hc
    cases hline : L[i]? with
    | none =>
      have hlen : L.length ≤ i := List.getElem?_eq_none_iff.mp hline
      have hres0 : scanAux m g L (fuel + 1) i st = (st, none) := by
        rw [scanAux_succ, hline]
      rw [hres0]
      refine ⟨?_, ?_, ?_⟩
      · intro s e hres
        exact absurd (congrArg Prod.snd hres) (by simp)
      · intro s hres
        rw [Prod.mk.injEq] at hres
        obtain ⟨hst, -⟩ := hres
        obtain ⟨hma, hslt, hmono⟩ := ha s hst
        refine ⟨hma, markerAt_lt hma, ?_, ?_⟩
        · intro j hsj
          by_cases hj : j < i
          · exact hmono j hsj hj
          · exact markerAt_of_ge (by omega)
        · intro j
          by_cases hj : j < i
          · by_cases hsj : s ≤ j
            · exact hc s hst j hsj hj
            · cases hEC : isEndCandidate L g s j with
              | false => rfl
              | true => exact absurd ((isEndCandidate_parts hEC).2.1) (by omega)
          · exact isEndCandidate_of_ge (by omega)
      · intro e? hres
        rw [Prod.mk.injEq] at hres
        obtain ⟨hst, he⟩ := hres
        refine ⟨he.symm, ?_⟩
        intro j
        by_cases hj : j < i
        · exact hb hst j hj
        · exact markerAt_of_ge (by omega)
    | some line =>
      by_cases hm : containsSub line m = true
      · have hmi : markerAt m L i = true := by simp [markerAt, hline, hm]
        have hno : isEndCandidate L g i i = false := by
          cases hEC : isEndCandidate L g i i with
          | false => rfl
          | true => exact absurd ((isEndCandidate_parts hEC).2.1) (by omega)
        have hres : scanAux m g L (fuel + 1) i st = scanAux m g L fuel (i + 1) (some i) := by
          rw [scanAux_succ, hline]
          simp [hm, hno]
        rw [hres]
        apply ih (i + 1) (some i) (by omega)
        · intro s0 hs0
          injection hs0 with hs0
          subst hs0
          exact ⟨hmi, by omega, fun j hj1 hj2 => absurd hj2 (by omega)⟩
        · intro h0
          exact absurd h0 (by simp)
        · intro s0 hs0 j hj1 hj2
          injection hs0 with hs0
          subst hs0
          have hji : j = i := by omega
          rw [hji]
          exact hno
      · have hmi : markerAt m L i = false := by
          simp only [markerAt, hline]
          exact Bool.eq_false_iff.mpr hm
        cases hst0 : st with
        | none =>
          have hres : scanAux m g L (fuel + 1) i none = scanAux m g L fuel (i + 1) none := by
            rw [scanAux_succ, hline]
            simp [hm]
          rw [hres]
          apply ih (i + 1) none (by omega)
          · intro s0 hs0
            exact absurd hs0 (by simp)
          · intro _ j hj
            by_cases hji : j < i
            · exact hb hst0 j hji
            · have hji2 : j = i := by omega
              rw [hji2]
              exact hmi
          · intro s0 hs0
            exact absurd hs0 (by simp)
        | some s0 =>
          obtain ⟨hma0, hs0i, hmono0⟩ := ha s0 hst0
          by_cases hend : isEndCandidate L g s0 i = true
          · have hres : scanAux m g L (fuel + 1) i (some s0) = (some s0, some i) := by
              rw [scanAux_succ, hline]
              simp [hm, hend]
            rw [hres]
            refine ⟨?_, ?_, ?_⟩
            · intro s e hres2
              rw [Prod.mk.injEq] at hres2
              obtain ⟨hs, he⟩ := hres2
              injection hs with hs
              injection he with he
              subst hs
              subst he
              refine ⟨hma0, markerAt_lt hma0, isEndCandidate_lt hend, hend, ?_, ?_⟩
              · intro j hj
                by_cases hsj : s0 ≤ j
                · exact hc s0 hst0 j hsj hj
                · cases hEC : isEndCandidate L g s0 j with
                  | false => rfl
                  | true => exact absurd ((isEndCandidate_parts hEC).2.1) (by omega)
              · intro j hj1 hj2
                by_cases hji : j < i
                · exact hmono0 j hj1 hji
                · have hji2 : j = i := by omega
                  rw [hji2]
                  exact hmi
            · intro s hres2
              exact absurd (congrArg Prod.snd hres2) (by simp)
            · intro e? hres2
              exact absurd (congrArg Prod.fst hres2) (by simp)
          · have hend' : isEndCandidate L g s0 i = false := Bool.eq_false_iff.mpr hend
            have hres : scanAux m g L (fuel + 1) i (some s0) =
                scanAux m g L fuel (i + 1) (some s0) := by
              rw [scanAux_succ, hline]
              simp [hm, hend]
            rw [hres]
            apply ih (i + 1) (some s0) (by omega)
            · intro s1 hs1
              injection hs1 with hs1
              subst hs1
              refine ⟨hma0, by omega, ?_⟩
              intro j hj1 hj2
              by_cases hji : j < i
              · exact hmono0 j hj1 hji
              · have hji2 : j = i := by omega
                rw [hji2]
                exact hmi
            · intro h0
              exact absurd h0 (by simp)
            · intro s1 hs1 j hj1 hj2
              injection hs1 with hs1
              subst hs1
              by_cases hji : j < i
              · exact hc s0 hst0 j hj1 hji
              · have hji2 : j = i := by omega
                rw [hji2]
                exact hend'

/-- Specialization of the characterization to a full scan that locates both
indices: the start is the last marker line up to the end, and the end is the
first qualifying end line. -/
theorem scan_spec_found {m : String} {g : Nat} {L : List String} {s e : Nat}
    (h : scanBoundaries m g L = (some s, some e)) :
    markerAt m L s = true ∧ s < L.length ∧ e < L.length ∧
    isEndCandidate L g s e = true ∧
    (∀ j, j < e → isEndCandidate L g s j = false) ∧
    (∀ j, s < j → j ≤ e → markerAt m L j = false) := by
  refine (scanAux_spec m g L L.length 0 none (by omega) ?_ ?_ ?_).1 s e h
  · intro s0 hs0
    exact absurd hs0 (by simp)
  · intro _ j hj
    exact absurd hj (Nat.not_lt_zero j)
  · intro s0 hs0
    exact absurd hs0 (by simp)

/-- Specialization to a full scan that locates a start but no end: the start is
the last marker line of the document and no line at all passes the end test. -/
theorem scan_spec_noEnd {m : String} {g : Nat} {L : List String} {s : Nat}
    (h : scanBoundaries m g L = (some s, none)) :
    markerAt m L s = true ∧ s < L.length ∧
    (∀ j, s < j → markerAt m L j = false) ∧
    (∀ j, isEndCandidate L g s j = false) := by
  refine (scanAux_spec m g L L.length 0 none (by omega) ?_ ?_ ?_).2.1 s h
  · intro s0 hs0
    exact absurd hs0 (by simp)
  · intro _ j hj
    exact absurd hj (Nat.not_lt_zero j)
  · intro s0 hs0
    exact absurd hs0 (by simp)

/-- Specialization to a full scan that locates no start: the end is also unset
and no line of the document contains the marker. -/
theorem scan_spec_noStart {m : String} {g : Nat} {L : List String} {e? : Option Nat}
    (h : scanBoundaries m g L = (none, e?)) :
    e? = none ∧ ∀ j, markerAt m L j = false := by
  refine (scanAux_spec m g L L.length 0 none (by omega) ?_ ?_ ?_).2.2 e? h
  · intro s0 hs0
    exact absurd hs0 (by simp)
  · intro _ j hj
    exact absurd hj (Nat.not_lt_zero j)
  · intro s0 hs0
    exact absurd hs0 (by simp)

/-- With no marker anywhere, the scan loop started on an unset start returns
both indices unset. -/
theorem scanAux_no_marker (m : String) (g : Nat) (L : List String)
    (hall : ∀ j, markerAt m L j = false) :
    ∀ fuel i, scanAux m g L fuel i none = (none, none) := by
  intro fuel
  induction fuel with
  | zero =>
    intro i
    rfl
  | succ fuel ih =>
    intro i
    cases hline : L[i]? with
    | none => rw [scanAux_succ, hline]
    | some line =>
      have hm : containsSub line m = false := by
        have h := hall i
        simpa [markerAt, hline] using h
      rw [scanAux_succ, hline]
      simp [hm, ih]

/-- With no marker anywhere, the whole scan returns both indices unset. -/
theorem scan_no_marker (m : String) (g : Nat) (L : List String)
    (hall : ∀ j, markerAt m L j = false) :
    scanBoundaries m g L = (none, none) :=
  scanAux_no_marker m g L hall L.length 0

/-- Prepending the byte-order marker puts exactly one marker character in
front of the data. -/
theorem bom_append_data (s : String) : (BOM_CHAR ++ s).data = '﻿' :: s.data := by
  cases s with
  | mk l => rfl

/-- Reading back a string written with the byte-order marker restores it. -/
theorem readUtf8Sig_roundtrip (s : String) : readUtf8Sig (BOM_CHAR ++ s) = s := by
  cases s with
  | mk l =>
    have h1 : (BOM_CHAR ++ String.mk l) = String.mk ('﻿' :: l) := rfl
    have h2 : startsWithChars (String.mk ('﻿' :: l)) BOM_CHAR = true := rfl
    rw [h1]
    unfold readUtf8Sig
    rw [if_pos h2]
    rfl

/-- C1: for every run in which both a start index and an end index are located,
the written line sequence equals all lines strictly before the start index,
then the replacement content as one unit with one trailing line break, then
all lines strictly after the end index; consequently every line before the
start keeps its position and every line after the end reappears, in order,
right after the inserted unit. -/
theorem C1_splice_outside_preserved (repl : String) (L : List String) (s e : Nat)
    (h : scanBoundaries MARKER MIN_GAP L = (some s, some e)) :
    runScript MARKER MIN_GAP repl L =
      Outcome.written (L.take s ++ ([repl ++ "\n"] ++ L.drop (e + 1))) ∧
    (∀ j, j < s → (L.take s ++ ([repl ++ "\n"] ++ L.drop (e + 1)))[j]? = L[j]?) ∧
    (∀ k, (L.take s ++ ([repl ++ "\n"] ++ L.drop (e + 1)))[s + 1 + k]? = L[e + 1 + k]?) := by
  have A := scan_spec_found h
  have hs : s < L.length := A.2.1
  refine ⟨by simp [runScript, h, spliceLines], ?_, ?_⟩
  · intro j hj
    have hjt : j < (L.take s).length := by
      rw [List.length_take]
      omega
    rw [List.getElem?_append_left hjt, List.getElem?_take_of_lt hj]
  · intro k
    have hlen : (L.take s).length = s := by
      rw [List.length_take]
      omega
    have h1 : (L.take s).length ≤ s + 1 + k := by omega
    rw [List.getElem?_append_right h1, hlen]
    have h2 : s + 1 + k - s = 1 + k := by omega
    rw [h2]
    have h5 : ([repl ++ "\n"] : List String).length ≤ 1 + k := by
      simp only [List.length_cons, List.length_nil]
      omega
    rw [List.getElem?_append_right h5]
    have h6 : 1 + k - ([repl ++ "\n"] : List String).length = k := by
      simp only [List.length_cons, List.length_nil]
      omega
    rw [h6, List.getElem?_drop]

/-- Witness for C1 on `exDoc`: both indices are located at (0, 11) and the run
writes the splice. -/
theorem C1_witness :
    scanBoundaries MARKER MIN_GAP exDoc = (some 0, some 11) ∧
    runScript MARKER MIN_GAP "// replaced" exDoc =
      Outcome.written (exDoc.take 0 ++ (["// replaced" ++ "\n"] ++ exDoc.drop 12)) := by
  have h : scanBoundaries MARKER MIN_GAP exDoc = (some 0, some 11) := by decide
  exact ⟨h, (C1_splice_outside_preserved "// replaced" exDoc 0 11 h).1⟩

/-- C2: when no line of the document contains the marker substring, the run
aborts at the report step (the NotFoundError condition of the specification:
the source raises an uncaught TypeError on `start_line + 1`), no write occurs,
and the target file is left unmodified. -/
theorem C2_marker_absent (repl : String) (L : List String)
    (h : ∀ i, i < L.length → markerAt MARKER L i = false) :
    runScript MARKER MIN_GAP repl L = Outcome.notFoundAbort ∧
      finalFile MARKER MIN_GAP repl L = L := by
  have hall : ∀ j, markerAt MARKER L j = false := by
    intro j
    by_cases hj : j < L.length
    · exact h j hj
    · exact markerAt_of_ge (by omega)
  have hscan := scan_no_marker MARKER MIN_GAP L hall
  constructor
  · simp [runScript, hscan]
  · simp [finalFile, runScript, hscan]

/-- Witness for C2 on `exNoMarker`. -/
theorem C2_witness :
    (∀ i, i < exNoMarker.length → markerAt MARKER exNoMarker i = false) ∧
    runScript MARKER MIN_GAP "x" exNoMarker = Outcome.notFoundAbort ∧
    finalFile MARKER MIN_GAP "x" exNoMarker = exNoMarker := by
  have h : ∀ i, i < exNoMarker.length → markerAt MARKER exNoMarker i = false := by decide
  exact ⟨h, C2_marker_absent "x" exNoMarker h⟩

/-- C3: when a start index is located but no line of the document passes the
end-of-block heuristic against it, the run aborts at the report step (the
BoundaryError condition of the specification: the source raises an uncaught
TypeError on `end_line + 1`), no write occurs, and the target file is left
unmodified. -/
theorem C3_end_not_found (repl : String) (L : List String) (s : Nat)
    (h1 : (scanBoundaries MARKER MIN_GAP L).1 = some s)
    (h2 : ∀ i, i < L.length → isEndCandidate L MIN_GAP s i = false) :
    runScript MARKER MIN_GAP repl L = Outcome.boundaryAbort ∧
      finalFile MARKER MIN_GAP repl L = L := by
  cases hb : (scanBoundaries MARKER MIN_GAP L).2 with
  | none =>
    have hscan : scanBoundaries MARKER MIN_GAP L = (some s, none) := by
      rw [← h1, ← hb]
    constructor
    · simp [runScript, hscan]
    · simp [finalFile, runScript, hscan]
  | some e =>
    have hscan : scanBoundaries MARKER MIN_GAP L = (some s, some e) := by
      rw [← h1, ← hb]
    have A := scan_spec_found hscan
    exact absurd A.2.2.2.1 (by simp [h2 e A.2.2.1])

/-- Witness for C3 on `exShort`. -/
theorem C3_witness :
    (scanBoundaries MARKER MIN_GAP exShort).1 = some 0 ∧
    (∀ i, i < exShort.length → isEndCandidate exShort MIN_GAP 0 i = false) ∧
    runScript MARKER MIN_GAP "x" exShort = Outcome.boundaryAbort ∧
    finalFile MARKER MIN_GAP "x" exShort = exShort := by
  have h1 : (scanBoundaries MARKER MIN_GAP exShort).1 = some 0 := by decide
  have h2 : ∀ i, i < exShort.length → isEndCandidate exShort MIN_GAP 0 i = false := by decide
  exact ⟨h1, h2, C3_end_not_found "x" exShort 0 h1 h2⟩

/-- C4: whenever the scan locates both indices, the end index passes the full
end-of-block heuristic against the located start (lone closing brace, more
than 10 lines after the start, followed by a banner, a declaration, or a blank
line), and no smaller index passes it: the first match wins and scanning stops
there, with no depth counting. -/
theorem C4_end_first_match (L : List String) (s e : Nat)
    (h : scanBoundaries MARKER MIN_GAP L = (some s, some e)) :
    isEndCandidate L MIN_GAP s e = true ∧
      ∀ i, i < e → isEndCandidate L MIN_GAP s i = false := by
  have A := scan_spec_found h
  exact ⟨A.2.2.2.1, A.2.2.2.2.1⟩

/-- Witness for C4 on `exDoc`. -/
theorem C4_witness :
    scanBoundaries MARKER MIN_GAP exDoc = (some 0, some 11) ∧
    isEndCandidate exDoc MIN_GAP 0 11 = true ∧
    (∀ i, i < 11 → isEndCandidate exDoc MIN_GAP 0 i = false) := by
  have h : scanBoundaries MARKER MIN_GAP exDoc = (some 0, some 11) := by decide
  exact ⟨h, C4_end_first_match exDoc 0 11 h⟩

/-- Counterexample to C5 as stated: on `ex5` the marker occurs on line 0 (the
first marker line) and again on line 1, the end condition is met at line 12,
and the splice uses start index 1, not the first marker line 0; the written
output is not the splice at the first marker line. -/
theorem C5_counterexample :
    markerAt MARKER ex5 0 = true ∧
    scanBoundaries MARKER MIN_GAP ex5 = (some 1, some 12) ∧
    (1 : Nat) ≠ 0 ∧
    runScript MARKER MIN_GAP "x" ex5 ≠
      Outcome.written (ex5.take 0 ++ (["x" ++ "\n"] ++ ex5.drop 13)) := by
  refine ⟨by decide, by decide, by decide, ?_⟩
  decide

/-- C5 (amended): the start index used for the splice is the index of the LAST
marker line scanned before the scan stops (the loop overwrites the start on
every marker line): the located start is a marker line and no later line up to
the end index (or, when no end is found, anywhere) contains the marker.  When
the marker occurs on exactly one line this is that line's index. -/
theorem C5_last_marker (L : List String) (s : Nat) (e? : Option Nat)
    (h : scanBoundaries MARKER MIN_GAP L = (some s, e?)) :
    markerAt MARKER L s = true ∧
      ∀ j, s < j → j ≤ e?.getD L.length → markerAt MARKER L j = false := by
  cases e? with
  | some e =>
    have A := scan_spec_found h
    exact ⟨A.1, fun j hj1 hj2 => A.2.2.2.2.2 j hj1 hj2⟩
  | none =>
    have B := scan_spec_noEnd h
    exact ⟨B.1, fun j hj1 _ => B.2.2.1 j hj1⟩

/-- Witness for the amended C5 on `ex5`. -/
theorem C5_witness :
    markerAt MARKER ex5 1 = true ∧
    (∀ j, 1 < j → j ≤ (some 12 : Option Nat).getD ex5.length → markerAt MARKER ex5 j = false) := by
  have h : scanBoundaries MARKER MIN_GAP ex5 = (some 1, some 12) := by decide
  exact C5_last_marker ex5 1 (some 12) h

/-- C6: the concrete scenario of the specification, with the minimum gap
configured to 0: lines before the marker are preserved, the replacement is
inserted as one unit with an appended line break, lines after the detected
closing line are preserved. -/
theorem C6_concrete_scenario :
    runScript "void Foo" 0 repl6 ex6 =
      Outcome.written ["void Foo() \x7b\n  doB();\n\x7d\n\n", "\n", "void Bar() \x7b\n", "\x7d\n"] := by
  decide

/-- C7: the operation is not idempotent.  On `exDoc` the marker line lies
inside the replaced region [0, 11]; the first run writes an output that no
longer contains the marker, so the second run on that output aborts with the
NotFoundError condition instead of reproducing its input. -/
theorem C7_not_idempotent :
    markerAt MARKER exDoc 0 = true ∧
    runScript MARKER MIN_GAP repl7 exDoc = Outcome.written [repl7 ++ "\n", ""] ∧
    runScript MARKER MIN_GAP repl7 [repl7 ++ "\n", ""] = Outcome.notFoundAbort := by
  refine ⟨by decide, by decide, by decide⟩

/-- C8: for every successful run, re-reading the written content with the same
byte-order-aware decoding restores exactly the logical content that was
written, and the encoded form carries exactly one more byte-order-marker
character than the logical content: none is duplicated and none is lost. -/
theorem C8_bom_roundtrip (repl : String) (L out : List String)
    (h : runScript MARKER MIN_GAP repl L = Outcome.written out) :
    readUtf8Sig (writeUtf8Sig out) = String.join out ∧
    (writeUtf8Sig out).data.count '﻿' = (String.join out).data.count '﻿' + 1 := by
  constructor
  · exact readUtf8Sig_roundtrip (String.join out)
  · unfold writeUtf8Sig
    rw [bom_append_data, List.count_cons_self]

/-- Witness for C8 on the run over `exDoc`. -/
theorem C8_witness :
    runScript MARKER MIN_GAP repl7 exDoc = Outcome.written [repl7 ++ "\n", ""] ∧
    readUtf8Sig (writeUtf8Sig [repl7 ++ "\n", ""]) = String.join [repl7 ++ "\n", ""] ∧
    (writeUtf8Sig [repl7 ++ "\n", ""]).data.count '﻿' =
      (String.join [repl7 ++ "\n", ""]).data.count '﻿' + 1 := by
  have h : runScript MARKER MIN_GAP repl7 exDoc = Outcome.written [repl7 ++ "\n", ""] := by
    decide
  exact ⟨h, C8_bom_roundtrip repl7 exDoc [repl7 ++ "\n", ""] h⟩

/-- C9: whenever the end index becomes set, it is more than 10 lines after the
located start index, so the start precedes the end and the located region
[start, end] spans at least 12 lines. -/
theorem C9_gap_invariant (L : List String) (s e : Nat)
    (h : scanBoundaries MARKER MIN_GAP L = (some s, some e)) :
    s + 10 < e ∧ s < e ∧ 12 ≤ e + 1 - s := by
  have A := scan_spec_found h
  have hgap : s + MIN_GAP < e := (isEndCandidate_parts A.2.2.2.1).2.1
  simp only [MIN_GAP] at hgap
  exact ⟨hgap, by omega, by omega⟩

/-- Witness for C9 on `exDoc`. -/
theorem C9_witness : (0 : Nat) + 10 < 11 ∧ (0 : Nat) < 11 ∧ 12 ≤ 11 + 1 - 0 :=
  C9_gap_invariant exDoc 0 11 (by decide)

/-- C10: a lone-closing-brace candidate on the final line of the file never
qualifies as the end boundary, because the heuristic requires a following line
to exist; hence a document whose only such candidates sit on the final line
leaves the end index unset. -/
theorem C10_last_line_never_qualifies (L : List String)
    (h : ∀ i, i + 1 < L.length → isCloser L i = false) :
    (∀ s, isEndCandidate L MIN_GAP s (L.length - 1) = false) ∧
    (scanBoundaries MARKER MIN_GAP L).2 = none := by
  have hlast : ∀ g s, isEndCandidate L g s (L.length - 1) = false := by
    intro g s
    have hnone : L[L.length - 1 + 1]? = none := List.getElem?_eq_none (by omega)
    have hnext : nextLineOk L (L.length - 1) = false := by
      simp [nextLineOk, hnone]
    simp [isEndCandidate, hnext]
  refine ⟨fun s => hlast MIN_GAP s, ?_⟩
  cases hb : (scanBoundaries MARKER MIN_GAP L).2 with
  | none => rfl
  | some e =>
    exfalso
    cases ha : (scanBoundaries MARKER MIN_GAP L).1 with
    | none =>
      have hscan : scanBoundaries MARKER MIN_GAP L = (none, some e) := by
        rw [← ha, ← hb]
      have hcontra := (scan_spec_noStart hscan).1
      simp at hcontra
    | some s =>
      have hscan : scanBoundaries MARKER MIN_GAP L = (some s, some e) := by
        rw [← ha, ← hb]
      have A := scan_spec_found hscan
      have hparts := isEndCandidate_parts A.2.2.2.1
      have hlt : e + 1 < L.length := nextLineOk_lt hparts.2.2
      exact absurd hparts.1 (by simp [h e hlt])

/-- Witness for C10 on `exDocLast`, whose lone closing brace is the final
line. -/
theorem C10_witness :
    (∀ i, i + 1 < exDocLast.length → isCloser exDocLast i = false) ∧
    (∀ s, isEndCandidate exDocLast MIN_GAP s (exDocLast.length - 1) = false) ∧
    (scanBoundaries MARKER MIN_GAP exDocLast).2 = none := by
  have h0 : ∀ i, i < exDocLast.length - 1 → isCloser exDocLast i = false := by decide
  have h : ∀ i, i + 1 < exDocLast.length → isCloser exDocLast i = false :=
    fun i hi => h0 i (by omega)
  exact ⟨h, C10_last_line_never_qualifies exDocLast h⟩
